import Mathlib

/-!
Verification of the fuel-block-committer settlement pipeline.

The development shallowly embeds the parts of the repository that the
properties below are about:

* `services/src/state_importer.rs` — shredding of an L2 block's transaction
  bytes into fragments (`block_to_state_submission`) and the importer tick
  (`StateImporter.run`, `check_if_stale`);
* `services/src/state_listener.rs` — the listener tick
  (`StateListener.run`, `check_pending_txs`) that reclassifies pending L1
  transactions as `finalized` or `failed`;
* `storage/src/postgres.rs` — the storage operations
  (`insert_state_submission`, `get_unsubmitted_fragments`,
  `mark_submission_completed`, `get_pending_txs`,
  `update_submission_tx_state`, `get_latest_state_submission`), with the
  relational tables modelled as lists of rows and SQL effects as pure
  functions from database states to database states.

Bytes and 32-byte hashes are modelled as `Nat`; timestamps as `Nat`;
machine-integer truncation (`index as u32`, `block_number as i64`) is
modelled explicitly by reduction modulo the corresponding power of two.
-/

namespace FuelBlockCommitter

/-- Lifecycle state of an L1 submission transaction
(`ports::types::TransactionState`): `Pending`, `Finalized` or `Failed`. -/
inductive TransactionState where
  | pending
  | finalized
  | failed
deriving DecidableEq, Repr

/-- The header fields of an L2 block that the state importer reads
(`ports::fuel::FuelHeader`); only `height` is consumed by the importer. -/
structure FuelHeader where
  height : Nat
deriving DecidableEq, Repr

/-- An L2 block as consumed by the state importer (`ports::fuel::FuelBlock`):
its id (32-byte hash, modelled as `Nat`), header and the per-transaction
byte payloads. -/
structure FuelBlock where
  id : Nat
  header : FuelHeader
  transactions : List (List Nat)
deriving DecidableEq, Repr

/-- A state submission before insertion (`ports::types::StateSubmission`). -/
structure StateSubmission where
  id : Option Nat
  block_hash : Nat
  block_height : Nat
deriving DecidableEq, Repr

/-- A state fragment before insertion (`ports::types::StateFragment`). -/
structure StateFragment where
  id : Option Nat
  submission_id : Option Nat
  fragment_idx : Nat
  data : List Nat
  created_at : Nat
deriving DecidableEq, Repr

/-- Truncation of a `Nat` to a `u32` value, as performed by `index as u32`
in `block_to_state_submission`. -/
def u32Mod (n : Nat) : Nat := n % 2 ^ 32

/-- Fuel-indexed worker for `chunks`: splits a list into consecutive blocks
of `k` elements (the final block may be shorter), mirroring
`Itertools::chunks(MAX_FRAGMENT_SIZE)` over the flattened transaction bytes.
The fuel argument only makes the recursion structural; `chunks` supplies
enough fuel for it never to run out. -/
def chunksGo {α : Type*} (k : Nat) : Nat → List α → List (List α)
  | _, [] => []
  | 0, _ :: _ => []
  | fuel + 1, x :: xs => ((x :: xs).take k) :: chunksGo k fuel ((x :: xs).drop k)

/-- Splitting a list into consecutive blocks of `k` elements, the final
block possibly shorter; an empty list yields no blocks, exactly as
`Itertools::chunks` yields no chunk on an empty iterator. -/
def chunks {α : Type*} (k : Nat) (xs : List α) : List (List α) :=
  chunksGo k xs.length xs

/-- Embedding of `StateImporter::block_to_state_submission`
(`state_importer.rs` lines 54–83): flatten the block's transaction bytes,
shred them into chunks of `maxFragmentSize` bytes, and number the fragments
with `fragment_idx = index as u32`.  The Rust constant
`StateFragment::MAX_FRAGMENT_SIZE` lives in the `ports` crate (outside the
sources embedded here), so the chunk size is a parameter; `now` stands for
the `Utc::now()` timestamp stamped on every fragment.  The Rust function
returns `Result` but never errs, so the embedding returns the pair
directly. -/
def block_to_state_submission (maxFragmentSize now : Nat) (block : FuelBlock) :
    StateSubmission × List StateFragment :=
  let fragments := (chunks maxFragmentSize block.transactions.flatten).enum.map
    fun p => StateFragment.mk none none (u32Mod p.1) p.2 now
  let submission := StateSubmission.mk none block.id block.header.height
  (submission, fragments)

/-- Row of the `l1_submissions` table: a persisted state submission with its
serial id. -/
structure SubmissionRow where
  id : Nat
  fuel_block_hash : Nat
  fuel_block_height : Nat
deriving DecidableEq, Repr

/-- Row of the `l1_fragments` table: a persisted state fragment with its
serial id, keyed to its parent submission. -/
structure FragmentRow where
  id : Nat
  fragment_idx : Nat
  submission_id : Nat
  data : List Nat
  created_at : Nat
deriving DecidableEq, Repr

/-- Row of the `l1_fuel_block_submission` table: a block-header commitment. -/
structure BlockSubmissionRow where
  fuel_block_hash : Nat
  fuel_block_height : Nat
  completed : Bool
  submittal_height : Nat
deriving DecidableEq, Repr

/-- Row of the `l1_transactions` table: an L1 blob transaction. -/
structure TxRow where
  id : Nat
  hash : Nat
  state : TransactionState
deriving DecidableEq, Repr

/-- Row of the `l1_transaction_fragments` link table. -/
structure LinkRow where
  transaction_id : Nat
  fragment_id : Nat
deriving DecidableEq, Repr

/-- The relational database state shared by the workers: the five tables of
the schema plus the serial-id counters the `RETURNING id` inserts consume. -/
structure Db where
  blockSubmissions : List BlockSubmissionRow
  submissions : List SubmissionRow
  fragments : List FragmentRow
  transactions : List TxRow
  links : List LinkRow
  nextSubmissionId : Nat
  nextFragmentId : Nat
deriving DecidableEq, Repr

/-- Storage error (`storage::error::Error`); the code paths embedded here
only construct the `Database` variant, with a message. -/
inductive DbError where
  | database (msg : String)
deriving DecidableEq, Repr

/-- The `BLOB_LIMIT` constant of `Postgres::get_unsubmitted_fragments`. -/
def BLOB_LIMIT : Nat := 6

/-- The transaction states the `get_unsubmitted_fragments` query treats as
consuming a fragment: `Finalized` and `Pending` (the two bind parameters of
its `state IN ($1, $2)` clause). -/
def activeState (s : TransactionState) : Bool :=
  s == .finalized || s == .pending

namespace Postgres

/-- The subquery of `Postgres::get_unsubmitted_fragments`
(`postgres.rs` lines 183–189): join `l1_fragments` with
`l1_transaction_fragments` and `l1_transactions`, keep the rows whose
transaction state is `Finalized` or `Pending`, and project the fragment
ids.  Relational join is modelled as cross product, filter, project. -/
def consumedFragmentIds (db : Db) : List Nat :=
  (((db.fragments.flatMap fun f =>
      db.links.flatMap fun l =>
        db.transactions.map fun t => (f, l, t)).filter fun p =>
     p.1.id == p.2.1.fragment_id && p.2.1.transaction_id == p.2.2.id
       && activeState p.2.2.state).map fun p => p.1.id)

/-- Embedding of `Postgres::get_unsubmitted_fragments`
(`postgres.rs` lines 177–202): the fragments whose id is not produced by
the consumed-ids subquery, ordered by `created_at` ascending and capped at
`BLOB_LIMIT = 6`.  SQL leaves the order of equal `created_at` keys
unspecified; the embedding resolves ties stably. -/
def get_unsubmitted_fragments (db : Db) : List FragmentRow :=
  (((db.fragments.filter fun f => decide (f.id ∉ consumedFragmentIds db)).mergeSort
    fun a b => decide (a.created_at ≤ b.created_at)).take BLOB_LIMIT)

/-- Embedding of `Postgres::insert_state_submission`
(`postgres.rs` lines 139–175): reject an empty fragment list, otherwise
insert the submission row (obtaining a fresh serial id) and one fragment
row per fragment keyed to that id, all within one database transaction
(modelled by the single atomic state update). -/
def insert_state_submission (db : Db) (state : StateSubmission)
    (fragments : List StateFragment) : Except DbError Db :=
  if fragments.isEmpty then
    .error (.database "Cannot insert state with no fragments")
  else
    let submission_id := db.nextSubmissionId
    let fragmentRows := fragments.enum.map fun p =>
      FragmentRow.mk (db.nextFragmentId + p.1) p.2.fragment_idx submission_id
        p.2.data p.2.created_at
    .ok { db with
      submissions := db.submissions ++
        [SubmissionRow.mk submission_id state.block_hash state.block_height],
      fragments := db.fragments ++ fragmentRows,
      nextSubmissionId := submission_id + 1,
      nextFragmentId := db.nextFragmentId + fragments.length }

/-- Embedding of `Postgres::mark_submission_completed`
(`postgres.rs` lines 116–137): set `completed = true` on the rows matching
the hash and return the updated row, or fail when no row matches. -/
def mark_submission_completed (db : Db) (fuel_block_hash : Nat) :
    Except DbError (BlockSubmissionRow × Db) :=
  let updated := db.blockSubmissions.map fun r =>
    if r.fuel_block_hash == fuel_block_hash then { r with completed := true } else r
  match updated.find? fun r => r.fuel_block_hash == fuel_block_hash with
  | some row => .ok (row, { db with blockSubmissions := updated })
  | none => .error (.database "Cannot mark submission as completed! Submission not found in DB.")

/-- Embedding of `Postgres::get_pending_txs` (`postgres.rs` lines 244–255):
the transactions whose state is `Pending`. -/
def get_pending_txs (db : Db) : List TxRow :=
  db.transactions.filter fun r => r.state == .pending

/-- Embedding of `Postgres::has_pending_txs` (`postgres.rs` lines 234–242). -/
def has_pending_txs (db : Db) : Bool :=
  db.transactions.any fun r => r.state == .pending

/-- Embedding of `Postgres::get_latest_state_submission`
(`postgres.rs` lines 257–268): a submission row of maximal
`fuel_block_height` (`ORDER BY fuel_block_height DESC LIMIT 1`; among
equal heights SQL picks an arbitrary row, the embedding the first). -/
def latestStep (acc : Option SubmissionRow) (r : SubmissionRow) : Option SubmissionRow :=
  match acc with
  | none => some r
  | some m => if m.fuel_block_height < r.fuel_block_height then some r else some m

/-- Folding `latestStep` over the table keeps a row of maximal height. -/
def get_latest_state_submission (db : Db) : Option SubmissionRow :=
  db.submissions.foldl latestStep none

/-- The row transformation of `Postgres::update_submission_tx_state`
(`UPDATE l1_transactions SET state = $1 WHERE hash = $2`). -/
def updateTxRows (rows : List TxRow) (hash : Nat) (state : TransactionState) :
    List TxRow :=
  rows.map fun r => if r.hash == hash then { r with state := state } else r

/-- Embedding of `Postgres::update_submission_tx_state`
(`postgres.rs` lines 270–283): set the state of every transaction row
matching the hash; matching nothing is not an error. -/
def update_submission_tx_state (db : Db) (hash : Nat) (state : TransactionState) :
    Except DbError Db :=
  .ok { db with transactions := updateTxRows db.transactions hash state }

end Postgres

/-- The outstanding-fragments query as §4.1 of the specification words it
(used to compare against the embedded SQL): fragments whose id is not
linked via the link table to any transaction in state `Pending` or
`Finalized`, ordered by `created_at` ascending, capped at `BLOB_LIMIT`. -/
def spec_outstanding_fragments (db : Db) : List FragmentRow :=
  (((db.fragments.filter fun f =>
      decide (¬ ∃ l ∈ db.links, l.fragment_id = f.id ∧
        ∃ t ∈ db.transactions, t.id = l.transaction_id ∧
          (t.state = .pending ∨ t.state = .finalized))).mergeSort
    fun a b => decide (a.created_at ≤ b.created_at)).take BLOB_LIMIT)

/-- Error of a worker tick (`services::Error`): a block failing validation
or a storage failure. -/
inductive RunError where
  | validation
  | storage (e : DbError)
deriving DecidableEq, Repr

namespace StateImporter

/-- Embedding of `StateImporter::check_if_stale` (`state_importer.rs`
lines 40–45): the block is stale when a state submission is stored and its
height is at least the block's height. -/
def check_if_stale (db : Db) (block_height : Nat) : Bool :=
  match Postgres.get_latest_state_submission db with
  | some s => block_height ≤ s.fuel_block_height
  | none => false

/-- Embedding of `StateImporter::import_state` (`state_importer.rs`
lines 85–91): shred the block and insert the submission atomically. -/
def import_state (maxFragmentSize now : Nat) (block : FuelBlock) (db : Db) :
    Except DbError Db :=
  let p := block_to_state_submission maxFragmentSize now block
  Postgres.insert_state_submission db p.1 p.2

/-- Embedding of `StateImporter::run` (`state_importer.rs` lines 101–117).
The adapter's `latest_block` result is the `block` argument; the validator
verdict of `fetch_latest_block` is the `valid` flag (the validator crate is
outside the embedded sources), and a tick with an invalid block aborts
before the staleness check, as `fetch_latest_block` propagates the error. -/
def run (maxFragmentSize now : Nat) (block : FuelBlock) (valid : Bool) (db : Db) :
    Except RunError Db :=
  if valid = false then .error .validation
  else if check_if_stale db block.header.height || block.transactions.isEmpty then
    .ok db
  else
    match import_state maxFragmentSize now block db with
    | .ok db2 => .ok db2
    | .error e => .error (.storage e)

end StateImporter

/-- An L1 transaction receipt (`ports::types::TransactionResponse`). -/
structure TransactionResponse where
  block_number : Nat
  succeeded : Bool
deriving DecidableEq, Repr

/-- Truncation of a `u64` value to an `i64`, as performed by the
`block_number as i64` cast when the listener sets the gauge. -/
def i64OfNat (n : Nat) : Int :=
  if n % 2 ^ 64 < 2 ^ 63 then (n % 2 ^ 64 : Int) else (n % 2 ^ 64 : Int) - 2 ^ 64

/-- The mutable state a listener tick touches: the database plus the
`last_eth_block_w_blob` gauge. -/
structure ListenerState where
  db : Db
  gauge : Int
deriving DecidableEq, Repr

namespace StateListener

/-- Body of the `for tx in pending_txs` loop of
`StateListener::check_pending_txs` (`state_listener.rs` lines 40–68):
`resp` stands for the L1 adapter's `get_transaction_response` and
`currentBlock` for the `get_block_number` answer fetched once per tick.
The storage updates never fail in the pure model, so the error arms of the
matches are unreachable. -/
def checkTx (resp : Nat → Option TransactionResponse)
    (finalization_delay currentBlock : Nat) (s : ListenerState) (tx : TxRow) :
    ListenerState :=
  match resp tx.hash with
  | none => s
  | some r =>
    if r.succeeded = false then
      match Postgres.update_submission_tx_state s.db tx.hash .failed with
      | .ok db2 => { s with db := db2 }
      | .error _ => s
    else if currentBlock < r.block_number + finalization_delay then s
    else
      match Postgres.update_submission_tx_state s.db tx.hash .finalized with
      | .ok db2 => { db := db2, gauge := i64OfNat r.block_number }
      | .error _ => s

/-- Embedding of `StateListener::check_pending_txs` (`state_listener.rs`
lines 37–71): fold the loop body over the pending transactions. -/
def check_pending_txs (resp : Nat → Option TransactionResponse)
    (finalization_delay currentBlock : Nat) (s : ListenerState)
    (pending : List TxRow) : ListenerState :=
  pending.foldl (checkTx resp finalization_delay currentBlock) s

/-- Embedding of `StateListener::run` (`state_listener.rs` lines 80–90):
read the pending transactions, return unchanged when there are none, else
process them. -/
def run (resp : Nat → Option TransactionResponse)
    (finalization_delay currentBlock : Nat) (s : ListenerState) : ListenerState :=
  let pending := Postgres.get_pending_txs s.db
  if pending.isEmpty then s
  else check_pending_txs resp finalization_delay currentBlock s pending

/-- A sequence of listener ticks; each tick supplies its own adapter
responses and current L1 block number. -/
def runTicks (finalization_delay : Nat)
    (envs : List ((Nat → Option TransactionResponse) × Nat))
    (s : ListenerState) : ListenerState :=
  envs.foldl (fun acc e => run e.1 finalization_delay e.2 acc) s

end StateListener

lemma chunksGo_nil {α : Type*} (k fuel : Nat) : chunksGo (α := α) k fuel [] = [] := by
  cases fuel <;> rfl

lemma chunksGo_flatten {α : Type*} {k : Nat} (hk : 0 < k) :
    ∀ (fuel : Nat) (xs : List α), xs.length ≤ fuel →
      (chunksGo k fuel xs).flatten = xs := by
  intro fuel
  induction fuel with
  | zero =>
    intro xs hxs
    cases xs with
    | nil => rfl
    | cons x l => simp at hxs
  | succ n ih =>
    intro xs hxs
    cases xs with
    | nil => rfl
    | cons x l =>
      have hlen : ((x :: l).drop k).length ≤ n := by
        simp only [List.length_drop, List.length_cons]
        simp only [List.length_cons] at hxs
        omega
      simp only [chunksGo, List.flatten_cons, ih _ hlen, List.take_append_drop]

lemma chunksGo_length {α : Type*} {k : Nat} (hk : 0 < k) :
    ∀ (fuel : Nat) (xs : List α), xs.length ≤ fuel →
      (chunksGo k fuel xs).length = (xs.length + k - 1) / k := by
  intro fuel
  induction fuel with
  | zero =>
    intro xs hxs
    cases xs with
    | nil =>
      simp only [chunksGo, List.length_nil]
      rw [Nat.div_eq_of_lt (by omega)]
    | cons x l => simp at hxs
  | succ n ih =>
    intro xs hxs
    cases xs with
    | nil =>
      simp only [chunksGo, List.length_nil]
      rw [Nat.div_eq_of_lt (by omega)]
    | cons x l =>
      have hlen : ((x :: l).drop k).length ≤ n := by
        simp only [List.length_drop, List.length_cons]
        simp only [List.length_cons] at hxs
        omega
      have hm : 0 < (x :: l).length := by simp
      simp only [chunksGo, List.length_cons] at *
      rw [ih _ hlen]
      simp only [List.length_drop, List.length_cons]
      rcases Nat.lt_or_ge k (l.length + 1) with hlt | hge
      · have h1 : l.length + 1 - k + k - 1 = l.length := by omega
        have h2 : l.length + 1 + k - 1 = l.length + k := by omega
        rw [h1, h2, Nat.add_div_right _ hk]
      · have h1 : l.length + 1 - k = 0 := by omega
        rw [h1]
        rw [Nat.div_eq_of_lt (by omega)]
        have h2 : l.length + 1 + k - 1 = l.length + k := by omega
        rw [h2, Nat.add_div_right _ hk, Nat.div_eq_of_lt (by omega)]

lemma chunksGo_mem_length {α : Type*} {k : Nat} :
    ∀ (fuel : Nat) (xs : List α) (c : List α), c ∈ chunksGo k fuel xs →
      c.length ≤ k := by
  intro fuel
  induction fuel with
  | zero =>
    intro xs c hc
    cases xs <;> simp [chunksGo] at hc
  | succ n ih =>
    intro xs c hc
    cases xs with
    | nil => simp [chunksGo] at hc
    | cons x l =>
      simp only [chunksGo, List.mem_cons] at hc
      rcases hc with rfl | hc
      · simp only [List.length_take]
        exact Nat.min_le_left k (x :: l).length
      · exact ih _ _ hc

lemma chunksGo_dropLast_length {α : Type*} {k : Nat} (hk : 0 < k) :
    ∀ (fuel : Nat) (xs : List α), xs.length ≤ fuel →
      ∀ c ∈ (chunksGo k fuel xs).dropLast, c.length = k := by
  intro fuel
  induction fuel with
  | zero =>
    intro xs hxs c hc
    cases xs with
    | nil => simp [chunksGo] at hc
    | cons x l => simp at hxs
  | succ n ih =>
    intro xs hxs c hc
    cases xs with
    | nil => simp [chunksGo] at hc
    | cons x l =>
      have hlen : ((x :: l).drop k).length ≤ n := by
        simp only [List.length_drop, List.length_cons]
        simp only [List.length_cons] at hxs
        omega
      simp only [chunksGo] at hc
      cases hrest : chunksGo k n ((x :: l).drop k) with
      | nil => rw [hrest] at hc; simp at hc
      | cons r rs =>
        rw [hrest, List.dropLast_cons₂, List.mem_cons] at hc
        rcases hc with rfl | hc
        · have hne : (x :: l).drop k ≠ [] := by
            intro h
            rw [h, chunksGo_nil] at hrest
            exact List.cons_ne_nil r rs hrest.symm
          have hkle : k ≤ (x :: l).length := by
            by_contra hcon
            exact hne (List.drop_eq_nil_of_le (le_of_not_le hcon))
          rw [List.length_take]
          exact Nat.min_eq_left (by simpa using hkle)
        · exact ih _ hlen c (hrest ▸ hc)

lemma chunks_flatten {α : Type*} {k : Nat} (hk : 0 < k) (xs : List α) :
    (chunks k xs).flatten = xs :=
  chunksGo_flatten hk xs.length xs le_rfl

lemma chunks_length {α : Type*} {k : Nat} (hk : 0 < k) (xs : List α) :
    (chunks k xs).length = (xs.length + k - 1) / k :=
  chunksGo_length hk xs.length xs le_rfl

lemma chunks_mem_length {α : Type*} {k : Nat} {xs : List α} {c : List α}
    (hc : c ∈ chunks k xs) : c.length ≤ k :=
  chunksGo_mem_length xs.length xs c hc

lemma chunks_dropLast_length {α : Type*} {k : Nat} (hk : 0 < k) {xs : List α}
    {c : List α} (hc : c ∈ (chunks k xs).dropLast) : c.length = k :=
  chunksGo_dropLast_length hk xs.length xs le_rfl c hc

/-- The fragment data produced by `block_to_state_submission` are exactly
the chunks of the flattened transaction bytes, in order. -/
lemma fragments_map_data (k now : Nat) (block : FuelBlock) :
    ((block_to_state_submission k now block).2.map StateFragment.data)
      = chunks k block.transactions.flatten := by
  simp only [block_to_state_submission, List.map_map]
  have h : (StateFragment.data ∘ fun p : Nat × List Nat =>
      StateFragment.mk none none (u32Mod p.1) p.2 now) = Prod.snd := by
    funext p; rfl
  rw [h, List.enum_map_snd]

/-- The fragment indices produced by `block_to_state_submission` are the
positions of the chunks, truncated to `u32`. -/
lemma fragments_map_idx (k now : Nat) (block : FuelBlock) :
    ((block_to_state_submission k now block).2.map StateFragment.fragment_idx)
      = (List.range (chunks k block.transactions.flatten).length).map u32Mod := by
  simp only [block_to_state_submission, List.map_map]
  have h : (StateFragment.fragment_idx ∘ fun p : Nat × List Nat =>
      StateFragment.mk none none (u32Mod p.1) p.2 now) = (fun p => u32Mod p.1) := by
    funext p; rfl
  rw [h]
  have h2 : (fun p : Nat × List Nat => u32Mod p.1) = u32Mod ∘ Prod.fst := rfl
  rw [h2, ← List.map_map, List.enum_map_fst]

lemma fragments_length (k now : Nat) (block : FuelBlock) :
    (block_to_state_submission k now block).2.length
      = (chunks k block.transactions.flatten).length := by
  simp [block_to_state_submission]

/-- C1: for an L2 block whose transactions concatenate to the byte
sequence `X`, the fragments produced by `block_to_state_submission`
reproduce `X` exactly when their `data` fields are concatenated in
`fragment_idx` order (the fragments are emitted in that order), and the
`fragment_idx` values form the contiguous sequence `0..n`.  The chunk size
is positive (`Itertools::chunks` requires this) and the number of
fragments fits in a `u32`, so the `index as u32` cast does not wrap. -/
theorem c1_shredding_roundtrip (k now : Nat) (block : FuelBlock) (hk : 0 < k)
    (hbound : block.transactions.flatten.length ≤ k * 2 ^ 32) :
    (((block_to_state_submission k now block).2.map StateFragment.data).flatten
        = block.transactions.flatten)
    ∧ ((block_to_state_submission k now block).2.map StateFragment.fragment_idx
        = List.range (block_to_state_submission k now block).2.length) := by
  constructor
  · rw [fragments_map_data, chunks_flatten hk]
  · rw [fragments_map_idx, fragments_length]
    have hle : (chunks k block.transactions.flatten).length ≤ 2 ^ 32 := by
      rw [chunks_length hk]
      have : block.transactions.flatten.length + k - 1 < (2 ^ 32 + 1) * k := by
        have hkk : 1 ≤ k := hk
        calc block.transactions.flatten.length + k - 1
            ≤ k * 2 ^ 32 + k - 1 := by omega
          _ < (2 ^ 32 + 1) * k := by
              have : k * 2 ^ 32 = 2 ^ 32 * k := Nat.mul_comm _ _
              omega
      have := (Nat.div_lt_iff_lt_mul hk).mpr this
      omega
    have : ∀ i ∈ List.range (chunks k block.transactions.flatten).length,
        u32Mod i = i := by
      intro i hi
      rw [List.mem_range] at hi
      exact Nat.mod_eq_of_lt (lt_of_lt_of_le hi hle)
    calc (List.range (chunks k block.transactions.flatten).length).map u32Mod
        = (List.range (chunks k block.transactions.flatten).length).map id :=
          List.map_congr_left this
      _ = _ := List.map_id _

/-- Witness for C1 at a concrete block: chunk size 2,
transactions `[[1,2,3],[4,5]]`. -/
theorem c1_shredding_roundtrip_witness :
    (0 < 2 ∧ (FuelBlock.mk 7 (FuelHeader.mk 1) [[1, 2, 3], [4, 5]]).transactions.flatten.length
        ≤ 2 * 2 ^ 32)
    ∧ ((((block_to_state_submission 2 0
          (FuelBlock.mk 7 (FuelHeader.mk 1) [[1, 2, 3], [4, 5]])).2.map
            StateFragment.data).flatten
        = (FuelBlock.mk 7 (FuelHeader.mk 1) [[1, 2, 3], [4, 5]]).transactions.flatten)
      ∧ ((block_to_state_submission 2 0
          (FuelBlock.mk 7 (FuelHeader.mk 1) [[1, 2, 3], [4, 5]])).2.map
            StateFragment.fragment_idx
        = List.range (block_to_state_submission 2 0
            (FuelBlock.mk 7 (FuelHeader.mk 1) [[1, 2, 3], [4, 5]])).2.length)) :=
  ⟨⟨by decide, by decide⟩,
   c1_shredding_roundtrip 2 0 (FuelBlock.mk 7 (FuelHeader.mk 1) [[1, 2, 3], [4, 5]])
     (by decide) (by decide)⟩

/-- C2: shredding a block produces exactly
`ceil(total_tx_bytes / maxFragmentSize)` fragments (with natural-number
arithmetic, `(n + k - 1) / k`), the fragment data lengths sum to the total
byte count, every fragment's data is at most `k` bytes long, and every
fragment except possibly the last is exactly `k` bytes long. -/
theorem c2_fragment_sizes (k now : Nat) (block : FuelBlock) (hk : 0 < k) :
    ((block_to_state_submission k now block).2.length
        = (block.transactions.flatten.length + k - 1) / k)
    ∧ (((block_to_state_submission k now block).2.map
          (fun f => f.data.length)).sum = block.transactions.flatten.length)
    ∧ (∀ f ∈ (block_to_state_submission k now block).2, f.data.length ≤ k)
    ∧ (∀ f ∈ ((block_to_state_submission k now block).2).dropLast,
        f.data.length = k) := by
  refine ⟨?_, ?_, ?_, ?_⟩
  · rw [fragments_length, chunks_length hk]
  · have h : ((block_to_state_submission k now block).2.map
        (fun f => f.data.length)).sum
        = ((chunks k block.transactions.flatten).map List.length).sum := by
      rw [← fragments_map_data k now block, List.map_map]
      rfl
    rw [h, ← List.length_flatten, chunks_flatten hk]
  · intro f hf
    have : f.data ∈ (block_to_state_submission k now block).2.map StateFragment.data :=
      List.mem_map_of_mem _ hf
    rw [fragments_map_data] at this
    exact chunks_mem_length this
  · intro f hf
    have : f.data ∈ ((block_to_state_submission k now block).2.map
        StateFragment.data).dropLast := by
      rw [← List.map_dropLast]
      exact List.mem_map_of_mem _ hf
    rw [fragments_map_data] at this
    exact chunks_dropLast_length hk this

/-- Witness for C2 at a concrete block: chunk size 2,
transactions `[[1,2,3],[4,5]]` shred into `[[1,2],[3,4],[5]]`. -/
theorem c2_fragment_sizes_witness :
    0 < 2
    ∧ (((block_to_state_submission 2 0
          (FuelBlock.mk 7 (FuelHeader.mk 1) [[1, 2, 3], [4, 5]])).2.length
        = ((FuelBlock.mk 7 (FuelHeader.mk 1)
            [[1, 2, 3], [4, 5]]).transactions.flatten.length + 2 - 1) / 2)
      ∧ (((block_to_state_submission 2 0
            (FuelBlock.mk 7 (FuelHeader.mk 1) [[1, 2, 3], [4, 5]])).2.map
              (fun f => f.data.length)).sum
          = (FuelBlock.mk 7 (FuelHeader.mk 1)
              [[1, 2, 3], [4, 5]]).transactions.flatten.length)
      ∧ (∀ f ∈ (block_to_state_submission 2 0
            (FuelBlock.mk 7 (FuelHeader.mk 1) [[1, 2, 3], [4, 5]])).2,
          f.data.length ≤ 2)
      ∧ (∀ f ∈ ((block_to_state_submission 2 0
            (FuelBlock.mk 7 (FuelHeader.mk 1) [[1, 2, 3], [4, 5]])).2).dropLast,
          f.data.length = 2)) :=
  ⟨by decide,
   c2_fragment_sizes 2 0 (FuelBlock.mk 7 (FuelHeader.mk 1) [[1, 2, 3], [4, 5]])
     (by decide)⟩

lemma activeState_iff (s : TransactionState) :
    activeState s = true ↔ (s = .pending ∨ s = .finalized) := by
  cases s <;> simp [activeState]

lemma mem_consumedFragmentIds {db : Db} {x : Nat} :
    x ∈ Postgres.consumedFragmentIds db ↔
      ∃ f ∈ db.fragments, f.id = x ∧ ∃ l ∈ db.links, l.fragment_id = f.id ∧
        ∃ t ∈ db.transactions, t.id = l.transaction_id ∧ activeState t.state = true := by
  simp only [Postgres.consumedFragmentIds, List.mem_map, List.mem_filter,
    List.mem_flatMap, Bool.and_eq_true, beq_iff_eq]
  constructor
  · rintro ⟨p, ⟨⟨f, hf, l, hl, t, ht, rfl⟩, hcond⟩, rfl⟩
    exact ⟨f, hf, rfl, l, hl, hcond.1.1.symm, t, ht, hcond.1.2.symm, hcond.2⟩
  · rintro ⟨f, hf, rfl, l, hl, hfl, t, ht, htl, hact⟩
    exact ⟨(f, l, t), ⟨⟨f, hf, l, hl, t, ht, rfl⟩, ⟨hfl.symm, htl.symm⟩, hact⟩, rfl⟩

lemma consumed_iff {db : Db} {f : FragmentRow} (hf : f ∈ db.fragments) :
    f.id ∈ Postgres.consumedFragmentIds db ↔
      ∃ l ∈ db.links, l.fragment_id = f.id ∧
        ∃ t ∈ db.transactions, t.id = l.transaction_id ∧
          (t.state = .pending ∨ t.state = .finalized) := by
  rw [mem_consumedFragmentIds]
  constructor
  · rintro ⟨f2, hf2, hid, l, hl, hfl, t, ht, htl, hact⟩
    exact ⟨l, hl, by rw [hfl, hid], t, ht, htl, (activeState_iff _).mp hact⟩
  · rintro ⟨l, hl, hfl, t, ht, htl, hst⟩
    exact ⟨f, hf, rfl, l, hl, hfl, t, ht, htl, (activeState_iff _).mpr hst⟩

/-- C4: the `get_unsubmitted_fragments` query agrees with the
specification's description of `outstanding_fragments`: it returns exactly
the fragments whose id is not linked through the link table to any
transaction in state `Pending` or `Finalized` (so fragments linked only to
`Failed` transactions remain eligible), ordered by `created_at` ascending
and capped at `BLOB_LIMIT = 6`. -/
theorem c4_get_unsubmitted_fragments (db : Db) :
    Postgres.get_unsubmitted_fragments db = spec_outstanding_fragments db
    ∧ List.Pairwise (fun a b => a.created_at ≤ b.created_at)
        (Postgres.get_unsubmitted_fragments db)
    ∧ (Postgres.get_unsubmitted_fragments db).length ≤ BLOB_LIMIT := by
  have hfilter : (db.fragments.filter fun f =>
      decide (f.id ∉ Postgres.consumedFragmentIds db))
      = db.fragments.filter fun f =>
        decide (¬ ∃ l ∈ db.links, l.fragment_id = f.id ∧
          ∃ t ∈ db.transactions, t.id = l.transaction_id ∧
            (t.state = .pending ∨ t.state = .finalized)) :=
    List.filter_congr fun f hf => decide_eq_decide.mpr (not_congr (consumed_iff hf))
  refine ⟨?_, ?_, ?_⟩
  · unfold Postgres.get_unsubmitted_fragments spec_outstanding_fragments
    rw [hfilter]
  · have hs := @List.sorted_mergeSort FragmentRow
      (fun a b => decide (a.created_at ≤ b.created_at))
      (fun a b c hab hbc => by
        simp only [decide_eq_true_eq] at *
        omega)
      (fun a b => by
        simp only [Bool.or_eq_true, decide_eq_true_eq]
        omega)
      (db.fragments.filter fun f => decide (f.id ∉ Postgres.consumedFragmentIds db))
    have hp := hs.imp (fun h => of_decide_eq_true h)
    exact hp.sublist (List.take_sublist _ _)
  · unfold Postgres.get_unsubmitted_fragments
    rw [List.length_take]
    exact min_le_left _ _

/-- C6: `insert_state_submission` rejects an empty fragment list with a
storage error and otherwise atomically appends the submission row together
with one fragment row per fragment, each keyed to the freshly assigned
submission id, leaving every other table untouched.  In this pure model an
error produces no state change by construction; the mid-transaction SQL
failure modes (connectivity loss) rolled back by `BEGIN`/`COMMIT` are
outside the embedding. -/
theorem c6_insert_state_submission (db : Db) (state : StateSubmission)
    (fragments : List StateFragment) :
    (fragments = [] →
      Postgres.insert_state_submission db state fragments
        = .error (.database "Cannot insert state with no fragments"))
    ∧ (fragments ≠ [] →
      ∃ db2, Postgres.insert_state_submission db state fragments = .ok db2
        ∧ db2.submissions = db.submissions
            ++ [SubmissionRow.mk db.nextSubmissionId state.block_hash state.block_height]
        ∧ db2.fragments.take db.fragments.length = db.fragments
        ∧ (db2.fragments.drop db.fragments.length).length = fragments.length
        ∧ (∀ r ∈ db2.fragments.drop db.fragments.length,
            r.submission_id = db.nextSubmissionId)
        ∧ ((db2.fragments.drop db.fragments.length).map
            fun r => (r.fragment_idx, r.data, r.created_at))
          = fragments.map (fun f => (f.fragment_idx, f.data, f.created_at))
        ∧ db2.blockSubmissions = db.blockSubmissions
        ∧ db2.transactions = db.transactions
        ∧ db2.links = db.links) := by
  constructor
  · intro h
    subst h
    rfl
  · intro h
    have hne : fragments.isEmpty = false := by
      cases fragments with
      | nil => exact absurd rfl h
      | cons a l => rfl
    have hrun : Postgres.insert_state_submission db state fragments
        = .ok { db with
            submissions := db.submissions ++
              [SubmissionRow.mk db.nextSubmissionId state.block_hash state.block_height],
            fragments := db.fragments ++ fragments.enum.map (fun p =>
              FragmentRow.mk (db.nextFragmentId + p.1) p.2.fragment_idx
                db.nextSubmissionId p.2.data p.2.created_at),
            nextSubmissionId := db.nextSubmissionId + 1,
            nextFragmentId := db.nextFragmentId + fragments.length } := by
      unfold Postgres.insert_state_submission
      rw [hne]
      rfl
    refine ⟨_, hrun, rfl, ?_, ?_, ?_, ?_, rfl, rfl, rfl⟩
    · exact List.take_left _ _
    · rw [List.drop_left]
      simp [List.enum_length]
    · rw [List.drop_left]
      rintro r hr
      rcases List.mem_map.mp hr with ⟨p, hp, rfl⟩
      rfl
    · rw [List.drop_left, List.map_map]
      have hcomp : ((fun r : FragmentRow => (r.fragment_idx, r.data, r.created_at)) ∘
          fun p : Nat × StateFragment =>
            FragmentRow.mk (db.nextFragmentId + p.1) p.2.fragment_idx
              db.nextSubmissionId p.2.data p.2.created_at)
          = (fun f : StateFragment => (f.fragment_idx, f.data, f.created_at)) ∘ Prod.snd := by
        funext p
        rfl
      rw [hcomp, ← List.map_map, List.enum_map_snd]

/-- Witness for C6 at a concrete database and fragment list: the empty
list is rejected and a singleton list is appended atomically. -/
theorem c6_insert_state_submission_witness :
    (Postgres.insert_state_submission (Db.mk [] [] [] [] [] 0 0)
        (StateSubmission.mk none 9 1) []
      = .error (.database "Cannot insert state with no fragments"))
    ∧ ∃ db2, Postgres.insert_state_submission (Db.mk [] [] [] [] [] 0 0)
        (StateSubmission.mk none 9 1) [StateFragment.mk none none 0 [1, 2] 0] = .ok db2 := by
  constructor
  · exact (c6_insert_state_submission (Db.mk [] [] [] [] [] 0 0)
      (StateSubmission.mk none 9 1) []).1 rfl
  · rcases (c6_insert_state_submission (Db.mk [] [] [] [] [] 0 0)
        (StateSubmission.mk none 9 1) [StateFragment.mk none none 0 [1, 2] 0]).2
        (by decide) with ⟨db2, hdb2, _⟩
    exact ⟨db2, hdb2⟩

/-- C8: `mark_submission_completed` fails when no block submission carries
the given hash; when one does, it sets `completed = true`, returns the
updated row, and a second call on the already-completed row succeeds and
returns the same row and state again. -/
theorem c8_mark_submission_completed (db : Db) (hash : Nat) :
    ((∀ r ∈ db.blockSubmissions, r.fuel_block_hash ≠ hash) →
      Postgres.mark_submission_completed db hash
        = .error (.database
            "Cannot mark submission as completed! Submission not found in DB."))
    ∧ (∀ row, db.blockSubmissions.find? (fun r => r.fuel_block_hash == hash) = some row →
        ∃ db2, Postgres.mark_submission_completed db hash
            = .ok ({ row with completed := true }, db2)
          ∧ Postgres.mark_submission_completed db2 hash
            = .ok ({ row with completed := true }, db2)) := by
  have hg : ((fun r : BlockSubmissionRow => r.fuel_block_hash == hash) ∘
      fun r : BlockSubmissionRow =>
        if r.fuel_block_hash == hash then { r with completed := true } else r)
      = fun r : BlockSubmissionRow => r.fuel_block_hash == hash := by
    funext r
    by_cases h : r.fuel_block_hash = hash <;> simp [h]
  constructor
  · intro h
    have hnone : db.blockSubmissions.find?
        (fun r => r.fuel_block_hash == hash) = none :=
      List.find?_eq_none.mpr fun r hr => by
        simpa using h r hr
    simp only [Postgres.mark_submission_completed, List.find?_map, hg, hnone]
    rfl
  · intro row hrow
    have hrb : row.fuel_block_hash = hash := by
      have h2 := List.find?_some hrow
      simpa using h2
    have hfind : (db.blockSubmissions.map fun r =>
        if r.fuel_block_hash == hash then { r with completed := true } else r).find?
          (fun r => r.fuel_block_hash == hash)
        = some { row with completed := true } := by
      rw [List.find?_map, hg, hrow]
      simp [hrb]
    have hmap2 : ((db.blockSubmissions.map fun r =>
        if r.fuel_block_hash == hash then { r with completed := true } else r).map fun r =>
          if r.fuel_block_hash == hash then { r with completed := true } else r)
        = db.blockSubmissions.map fun r =>
          if r.fuel_block_hash == hash then { r with completed := true } else r := by
      rw [List.map_map]
      apply List.map_congr_left
      intro r hr
      by_cases h : r.fuel_block_hash = hash <;> simp [h]
    refine ⟨{ db with blockSubmissions := db.blockSubmissions.map fun r =>
        if r.fuel_block_hash == hash then { r with completed := true } else r }, ?_, ?_⟩
    · simp only [Postgres.mark_submission_completed, hfind]
    · simp only [Postgres.mark_submission_completed, hmap2, hfind]

/-- Witness for C8 at a concrete database: a missing hash fails; an
existing hash is marked completed, and marking it again returns the same
completed row. -/
theorem c8_mark_submission_completed_witness :
    (Postgres.mark_submission_completed
        (Db.mk [BlockSubmissionRow.mk 5 1 false 10] [] [] [] [] 0 0) 7
      = .error (.database
          "Cannot mark submission as completed! Submission not found in DB."))
    ∧ ∃ db2, Postgres.mark_submission_completed
          (Db.mk [BlockSubmissionRow.mk 5 1 false 10] [] [] [] [] 0 0) 5
        = .ok (BlockSubmissionRow.mk 5 1 true 10, db2)
      ∧ Postgres.mark_submission_completed db2 5
        = .ok (BlockSubmissionRow.mk 5 1 true 10, db2) := by
  constructor
  · exact (c8_mark_submission_completed
      (Db.mk [BlockSubmissionRow.mk 5 1 false 10] [] [] [] [] 0 0) 7).1 (by decide)
  · exact (c8_mark_submission_completed
      (Db.mk [BlockSubmissionRow.mk 5 1 false 10] [] [] [] [] 0 0) 5).2
      (BlockSubmissionRow.mk 5 1 false 10) (by decide)

/-- C9: `update_submission_tx_state` called with a hash matching no
transaction row succeeds and leaves every transaction row (indeed the whole
database) unchanged. -/
theorem c9_update_unknown_hash_noop (db : Db) (hash : Nat)
    (state : TransactionState)
    (h : ∀ r ∈ db.transactions, r.hash ≠ hash) :
    Postgres.update_submission_tx_state db hash state = .ok db := by
  unfold Postgres.update_submission_tx_state Postgres.updateTxRows
  have hmap : db.transactions.map (fun r =>
      if r.hash == hash then { r with state := state } else r) = db.transactions := by
    have := List.map_congr_left (f := fun r : TxRow =>
      if r.hash == hash then { r with state := state } else r) (g := id)
      (l := db.transactions) (fun r hr => by simp [h r hr])
    rw [this, List.map_id]
  rw [hmap]

/-- Witness for C9: updating hash 7 in a database whose only transaction
has hash 5 is a no-op returning `Ok`. -/
theorem c9_update_unknown_hash_noop_witness :
    Postgres.update_submission_tx_state
      (Db.mk [] [] [] [TxRow.mk 1 5 .pending] [] 0 0) 7 .failed
      = .ok (Db.mk [] [] [] [TxRow.mk 1 5 .pending] [] 0 0) :=
  c9_update_unknown_hash_noop (Db.mk [] [] [] [TxRow.mk 1 5 .pending] [] 0 0) 7
    .failed (by decide)

lemma foldl_latestStep_some (l : List SubmissionRow) :
    ∀ (a : SubmissionRow), ∃ m, l.foldl Postgres.latestStep (some a) = some m
      ∧ a.fuel_block_height ≤ m.fuel_block_height := by
  induction l with
  | nil => exact fun a => ⟨a, rfl, le_rfl⟩
  | cons x xs ih =>
    intro a
    simp only [List.foldl_cons]
    have hstep : Postgres.latestStep (some a) x
        = if a.fuel_block_height < x.fuel_block_height then some x else some a := rfl
    rw [hstep]
    by_cases h : a.fuel_block_height < x.fuel_block_height
    · rw [if_pos h]
      rcases ih x with ⟨m, hm, hle⟩
      exact ⟨m, hm, le_trans (le_of_lt h) hle⟩
    · rw [if_neg h]
      exact ih a

lemma foldl_latestStep_mem (l : List SubmissionRow) :
    ∀ (acc : Option SubmissionRow) (r : SubmissionRow), r ∈ l →
      ∃ m, l.foldl Postgres.latestStep acc = some m
        ∧ r.fuel_block_height ≤ m.fuel_block_height := by
  induction l with
  | nil =>
    intro acc r hr
    simp at hr
  | cons x xs ih =>
    intro acc r hr
    simp only [List.foldl_cons]
    rcases List.mem_cons.mp hr with rfl | hmem
    · have hx : ∃ b, Postgres.latestStep acc r = some b
          ∧ r.fuel_block_height ≤ b.fuel_block_height := by
        cases acc with
        | none => exact ⟨r, rfl, le_rfl⟩
        | some a =>
          by_cases h : a.fuel_block_height < r.fuel_block_height
          · exact ⟨r, by simp [Postgres.latestStep, h], le_rfl⟩
          · exact ⟨a, by simp [Postgres.latestStep, h], by omega⟩
      rcases hx with ⟨b, hb, hrb⟩
      rw [hb]
      rcases foldl_latestStep_some xs b with ⟨m, hm, hbm⟩
      exact ⟨m, hm, le_trans hrb hbm⟩
    · exact ih _ r hmem

lemma mem_le_latest {db : Db} {r : SubmissionRow} (hr : r ∈ db.submissions) :
    ∃ m, Postgres.get_latest_state_submission db = some m
      ∧ r.fuel_block_height ≤ m.fuel_block_height :=
  foldl_latestStep_mem db.submissions none r hr

/-- C7: a State Importer tick with a valid block is a no-op returning `Ok`
whenever the block is stale (its height is at most the latest stored
submission height) or its transactions list is empty; and whatever a
successful tick produced, running the importer again on the same block
changes nothing — so two runs without new L2 progress add no rows. -/
theorem c7_importer_noop_idempotent (k now now2 : Nat) (block : FuelBlock)
    (db : Db) :
    ((StateImporter.check_if_stale db block.header.height = true
        ∨ block.transactions = []) →
      StateImporter.run k now block true db = .ok db)
    ∧ (∀ db2, StateImporter.run k now block true db = .ok db2 →
        StateImporter.run k now2 block true db2 = .ok db2) := by
  constructor
  · intro h
    rcases h with h | h
    · simp [StateImporter.run, h]
    · simp [StateImporter.run, h]
  · intro db2 hrun
    by_cases hcond : (StateImporter.check_if_stale db block.header.height
        || block.transactions.isEmpty) = true
    · simp only [StateImporter.run, if_neg (by simp : ¬(true = false)),
        hcond, if_true] at hrun
      injection hrun with h
      subst h
      simp [StateImporter.run, hcond]
    · simp only [StateImporter.run, if_neg (by simp : ¬(true = false)),
        hcond] at hrun
      rw [if_neg (by simp [hcond])] at hrun
      by_cases hemp : ((block_to_state_submission k now block).2).isEmpty = true
      · simp [StateImporter.import_state, Postgres.insert_state_submission,
          hemp] at hrun
      · simp only [StateImporter.import_state, Postgres.insert_state_submission,
          hemp, Bool.false_eq_true, if_false, if_neg] at hrun
        injection hrun with h
        subst h
        have hrow : (SubmissionRow.mk db.nextSubmissionId
            (block_to_state_submission k now block).1.block_hash
            (block_to_state_submission k now block).1.block_height)
            ∈ (db.submissions ++ [SubmissionRow.mk db.nextSubmissionId
              (block_to_state_submission k now block).1.block_hash
              (block_to_state_submission k now block).1.block_height]) := by
          simp
        rcases foldl_latestStep_mem _ none _ hrow with ⟨m, hm, hle⟩
        have hstale : StateImporter.check_if_stale
            { db with
              submissions := db.submissions ++ [SubmissionRow.mk db.nextSubmissionId
                (block_to_state_submission k now block).1.block_hash
                (block_to_state_submission k now block).1.block_height],
              fragments := db.fragments ++ (block_to_state_submission k now block).2.enum.map
                (fun p => FragmentRow.mk (db.nextFragmentId + p.1) p.2.fragment_idx
                  db.nextSubmissionId p.2.data p.2.created_at),
              nextSubmissionId := db.nextSubmissionId + 1,
              nextFragmentId := db.nextFragmentId
                + (block_to_state_submission k now block).2.length }
            block.header.height = true := by
        -- the freshly inserted row has the block's height, so the maximal
        -- stored height is at least it
          unfold StateImporter.check_if_stale Postgres.get_latest_state_submission
          rw [hm]
          exact decide_eq_true hle
        simp [StateImporter.run, hstale]

/-- Witness for C7 at a concrete state: a stale block (height 5 against a
stored submission of height 5) leaves the database untouched, and a fresh
successful import is idempotent. -/
theorem c7_importer_noop_idempotent_witness :
    (StateImporter.run 2 0 (FuelBlock.mk 9 (FuelHeader.mk 5) [[1]]) true
        (Db.mk [] [SubmissionRow.mk 0 9 5] [] [] [] 1 0)
      = .ok (Db.mk [] [SubmissionRow.mk 0 9 5] [] [] [] 1 0))
    ∧ ∀ db2, StateImporter.run 2 0 (FuelBlock.mk 9 (FuelHeader.mk 6) [[1]]) true
          (Db.mk [] [SubmissionRow.mk 0 9 5] [] [] [] 1 0) = .ok db2 →
        StateImporter.run 2 3 (FuelBlock.mk 9 (FuelHeader.mk 6) [[1]]) true db2
          = .ok db2 := by
  constructor
  · exact (c7_importer_noop_idempotent 2 0 0 (FuelBlock.mk 9 (FuelHeader.mk 5) [[1]])
      (Db.mk [] [SubmissionRow.mk 0 9 5] [] [] [] 1 0)).1 (Or.inl (by decide))
  · exact (c7_importer_noop_idempotent 2 0 3 (FuelBlock.mk 9 (FuelHeader.mk 6) [[1]])
      (Db.mk [] [SubmissionRow.mk 0 9 5] [] [] [] 1 0)).2

/-- C10 counterexample: the claim asserts that a valid latest block with a
non-empty transactions list whose transactions are all zero-length makes
the importer tick return an error; but when such a block is stale the
staleness check fires first and the tick is a silent no-op returning `Ok`,
as at this concrete input (block height 5, stored submission height 5). -/
theorem c10_counterexample :
    (FuelBlock.mk 9 (FuelHeader.mk 5) [[]]).transactions ≠ []
    ∧ (∀ t ∈ (FuelBlock.mk 9 (FuelHeader.mk 5) [[]]).transactions, t = [])
    ∧ StateImporter.run 2 0 (FuelBlock.mk 9 (FuelHeader.mk 5) [[]]) true
        (Db.mk [] [SubmissionRow.mk 0 9 5] [] [] [] 1 0)
      = .ok (Db.mk [] [SubmissionRow.mk 0 9 5] [] [] [] 1 0) :=
  ⟨by decide, by decide, by rfl⟩

/-- C10 (amended): for a valid, non-stale latest block whose transactions
list is non-empty but contains only zero-length transactions, the importer
tick is not a silent no-op: shredding yields zero fragments,
`insert_state_submission` rejects the empty fragment list, and the tick
returns that storage error (the pure model's error path writes nothing). -/
theorem c10_zero_length_txs_error (k now : Nat) (block : FuelBlock) (db : Db)
    (hne : block.transactions ≠ [])
    (hz : ∀ t ∈ block.transactions, t = [])
    (hstale : StateImporter.check_if_stale db block.header.height = false) :
    StateImporter.run k now block true db
      = .error (.storage (.database "Cannot insert state with no fragments")) := by
  have hflat : block.transactions.flatten = [] := List.flatten_eq_nil_iff.mpr hz
  have hfrag : (block_to_state_submission k now block).2 = [] := by
    simp [block_to_state_submission, hflat, chunks, chunksGo_nil]
  have hisEmpty : block.transactions.isEmpty = false := by
    rw [Bool.eq_false_iff]
    intro h
    exact hne (List.isEmpty_iff.mp h)
  simp [StateImporter.run, hstale, hisEmpty, StateImporter.import_state,
    Postgres.insert_state_submission, hfrag]

/-- Witness for the amended C10 at a concrete input: a fresh block of
height 1 with a single zero-length transaction makes the tick fail with
the empty-fragments storage error. -/
theorem c10_zero_length_txs_error_witness :
    StateImporter.run 2 0 (FuelBlock.mk 9 (FuelHeader.mk 1) [[]]) true
        (Db.mk [] [] [] [] [] 0 0)
      = .error (.storage (.database "Cannot insert state with no fragments")) :=
  c10_zero_length_txs_error 2 0 (FuelBlock.mk 9 (FuelHeader.mk 1) [[]])
    (Db.mk [] [] [] [] [] 0 0) (by decide) (by decide) (by decide)

lemma updateTxRows_map_hash (rows : List TxRow) (h0 : Nat) (st : TransactionState) :
    (Postgres.updateTxRows rows h0 st).map TxRow.hash = rows.map TxRow.hash := by
  unfold Postgres.updateTxRows
  rw [List.map_map]
  apply List.map_congr_left
  intro r hr
  by_cases h : r.hash = h0 <;> simp [h]

lemma mem_updateTxRows_of_ne {rows : List TxRow} {h0 : Nat} {st : TransactionState}
    {t : TxRow} (ht : t ∈ rows) (hne : t.hash ≠ h0) :
    t ∈ Postgres.updateTxRows rows h0 st := by
  unfold Postgres.updateTxRows
  have heq : t = (fun r : TxRow =>
      if r.hash == h0 then { r with state := st } else r) t := by
    simp [hne]
  rw [heq]
  exact List.mem_map_of_mem _ ht

lemma state_eq_updateTxRows {rows : List TxRow} {h0 : Nat} {st : TransactionState}
    {target : Nat} {tstate : TransactionState} (hne : target ≠ h0)
    (hp : ∀ r ∈ rows, r.hash = target → r.state = tstate) :
    ∀ r ∈ Postgres.updateTxRows rows h0 st, r.hash = target → r.state = tstate := by
  intro r hr htg
  rcases List.mem_map.mp hr with ⟨r0, hr0, rfl⟩
  by_cases h : r0.hash = h0
  · exfalso
    rw [if_pos (by simp [h])] at htg
    dsimp only at htg
    exact hne (htg.symm.trans h)
  · rw [if_neg (by simp [h])] at htg ⊢
    exact hp r0 hr0 htg

/-- The listener's loop body leaves the transactions either untouched or
rewritten by a single `update_submission_tx_state` at the inspected
transaction's hash. -/
lemma checkTx_db_cases (resp : Nat → Option TransactionResponse)
    (delay cb : Nat) (s : ListenerState) (tx : TxRow) :
    (StateListener.checkTx resp delay cb s tx).db.transactions = s.db.transactions
    ∨ ∃ st, (StateListener.checkTx resp delay cb s tx).db.transactions
        = Postgres.updateTxRows s.db.transactions tx.hash st := by
  unfold StateListener.checkTx
  cases resp tx.hash with
  | none => exact Or.inl rfl
  | some r =>
    dsimp only
    by_cases hs : r.succeeded = false
    · rw [if_pos hs]
      exact Or.inr ⟨.failed, rfl⟩
    · rw [if_neg hs]
      by_cases hb : cb < r.block_number + delay
      · rw [if_pos hb]
        exact Or.inl rfl
      · rw [if_neg hb]
        exact Or.inr ⟨.finalized, rfl⟩

lemma check_pending_txs_preserves (resp : Nat → Option TransactionResponse)
    (delay cb : Nat) (pending : List TxRow) :
    ∀ (s : ListenerState) (t : TxRow),
      (∀ p ∈ pending, t.hash ≠ p.hash) →
      t ∈ s.db.transactions →
      (∀ r ∈ s.db.transactions, r.hash = t.hash → r.state = t.state) →
      ((StateListener.check_pending_txs resp delay cb s pending).db.transactions.map
          TxRow.hash = s.db.transactions.map TxRow.hash)
      ∧ t ∈ (StateListener.check_pending_txs resp delay cb s pending).db.transactions
      ∧ (∀ r ∈ (StateListener.check_pending_txs resp delay cb s pending).db.transactions,
          r.hash = t.hash → r.state = t.state) := by
  induction pending with
  | nil => exact fun s t _ ht hp => ⟨rfl, ht, hp⟩
  | cons p ps ih =>
    intro s t hh ht hp
    have hnep : t.hash ≠ p.hash := hh p (List.mem_cons_self p ps)
    have hstep := checkTx_db_cases resp delay cb s p
    have hmap : (StateListener.checkTx resp delay cb s p).db.transactions.map TxRow.hash
        = s.db.transactions.map TxRow.hash := by
      rcases hstep with h | ⟨st, h⟩
      · rw [h]
      · rw [h, updateTxRows_map_hash]
    have hmem : t ∈ (StateListener.checkTx resp delay cb s p).db.transactions := by
      rcases hstep with h | ⟨st, h⟩
      · rw [h]; exact ht
      · rw [h]; exact mem_updateTxRows_of_ne ht hnep
    have hpres : ∀ r ∈ (StateListener.checkTx resp delay cb s p).db.transactions,
        r.hash = t.hash → r.state = t.state := by
      rcases hstep with h | ⟨st, h⟩
      · rw [h]; exact hp
      · rw [h]; exact state_eq_updateTxRows hnep hp
    have hrec := ih (StateListener.checkTx resp delay cb s p) t
      (fun q hq => hh q (List.mem_cons_of_mem p hq)) hmem hpres
    unfold StateListener.check_pending_txs at hrec ⊢
    rw [List.foldl_cons]
    exact ⟨hrec.1.trans hmap, hrec.2.1, hrec.2.2⟩

/-- A single listener tick leaves a terminal-state transaction row in
place with its state intact, and keeps the table's hash column unchanged. -/
lemma run_preserves_terminal (resp : Nat → Option TransactionResponse)
    (delay cb : Nat) (s : ListenerState) (t : TxRow)
    (hnd : (s.db.transactions.map TxRow.hash).Nodup)
    (ht : t ∈ s.db.transactions) (hterm : t.state ≠ .pending) :
    ((StateListener.run resp delay cb s).db.transactions.map TxRow.hash
        = s.db.transactions.map TxRow.hash)
    ∧ t ∈ (StateListener.run resp delay cb s).db.transactions
    ∧ (∀ r ∈ (StateListener.run resp delay cb s).db.transactions,
        r.hash = t.hash → r.state = t.state) := by
  have hinj : ∀ a ∈ s.db.transactions, ∀ b ∈ s.db.transactions,
      a.hash = b.hash → a = b :=
    fun a ha b hb hab => List.inj_on_of_nodup_map hnd ha hb hab
  have hp0 : ∀ r ∈ s.db.transactions, r.hash = t.hash → r.state = t.state :=
    fun r hr hrt => by rw [hinj r hr t ht hrt]
  have hh : ∀ p ∈ Postgres.get_pending_txs s.db, t.hash ≠ p.hash := by
    intro p hp
    have hpmem : p ∈ s.db.transactions := (List.mem_filter.mp hp).1
    have hpst : p.state = .pending := by
      have := (List.mem_filter.mp hp).2
      simpa using this
    intro heq
    exact hterm (by rw [hinj t ht p hpmem heq, hpst])
  unfold StateListener.run
  by_cases hemp : (Postgres.get_pending_txs s.db).isEmpty = true
  · rw [if_pos hemp]
    exact ⟨rfl, ht, hp0⟩
  · rw [if_neg hemp]
    exact check_pending_txs_preserves resp delay cb
      (Postgres.get_pending_txs s.db) s t hh ht hp0

/-- C3: the listener reads only `Pending` rows (`get_pending_txs` filters
on that state), and a transaction that has reached a terminal state
(`Finalized` or `Failed`) keeps that state across any sequence of
subsequent listener ticks: every row carrying its (unique) hash still has
the original terminal state afterwards. -/
theorem c3_terminal_state_never_changes (delay : Nat)
    (envs : List ((Nat → Option TransactionResponse) × Nat))
    (s : ListenerState) (t : TxRow)
    (hnd : (s.db.transactions.map TxRow.hash).Nodup)
    (ht : t ∈ s.db.transactions)
    (hterm : t.state = .finalized ∨ t.state = .failed) :
    (Postgres.get_pending_txs s.db
        = s.db.transactions.filter (fun r => r.state == .pending))
    ∧ t ∈ (StateListener.runTicks delay envs s).db.transactions
    ∧ (∀ r ∈ (StateListener.runTicks delay envs s).db.transactions,
        r.hash = t.hash → r.state = t.state) := by
  refine ⟨rfl, ?_⟩
  have hpend : t.state ≠ .pending := by
    rcases hterm with h | h <;> rw [h] <;> intro hc <;> cases hc
  clear hterm
  induction envs generalizing s with
  | nil =>
    refine ⟨ht, ?_⟩
    intro r hr hrt
    have hinj := List.inj_on_of_nodup_map hnd hr ht hrt
    rw [hinj]
  | cons e es ih =>
    have hstep := run_preserves_terminal e.1 delay e.2 s t hnd ht hpend
    have hnd2 : ((StateListener.run e.1 delay e.2 s).db.transactions.map
        TxRow.hash).Nodup := by
      rw [hstep.1]
      exact hnd
    have hrec := ih (StateListener.run e.1 delay e.2 s) hnd2 hstep.2.1
    unfold StateListener.runTicks at hrec ⊢
    rw [List.foldl_cons]
    refine ⟨hrec.1, ?_⟩
    intro r hr hrt
    have := hrec.2 r hr hrt
    -- the state recorded for t is unchanged by the first tick, so the
    -- recursive conclusion already speaks about t's original state
    exact this

/-- Witness for C3: one finalized transaction, one tick whose adapter
reports success at block 3 — the finalized row keeps its state. -/
theorem c3_terminal_state_never_changes_witness :
    (Postgres.get_pending_txs (Db.mk [] [] [] [TxRow.mk 1 5 .finalized] [] 0 0)
        = (Db.mk [] [] [] [TxRow.mk 1 5 .finalized] [] 0 0).transactions.filter
            (fun r => r.state == .pending))
    ∧ TxRow.mk 1 5 .finalized ∈ (StateListener.runTicks 0
        [(fun _ => some (TransactionResponse.mk 3 true), 10)]
        (ListenerState.mk (Db.mk [] [] [] [TxRow.mk 1 5 .finalized] [] 0 0)
          0)).db.transactions
    ∧ (∀ r ∈ (StateListener.runTicks 0
        [(fun _ => some (TransactionResponse.mk 3 true), 10)]
        (ListenerState.mk (Db.mk [] [] [] [TxRow.mk 1 5 .finalized] [] 0 0)
          0)).db.transactions,
        r.hash = (TxRow.mk 1 5 .finalized).hash
          → r.state = (TxRow.mk 1 5 .finalized).state) :=
  c3_terminal_state_never_changes 0
    [(fun _ => some (TransactionResponse.mk 3 true), 10)]
    (ListenerState.mk (Db.mk [] [] [] [TxRow.mk 1 5 .finalized] [] 0 0) 0)
    (TxRow.mk 1 5 .finalized) (by decide) (by decide) (Or.inl rfl)

lemma updateTxRows_state_at_hash (rows : List TxRow) (h0 : Nat)
    (st : TransactionState) :
    ∀ r ∈ Postgres.updateTxRows rows h0 st, r.hash = h0 → r.state = st := by
  intro r hr hrh
  rcases List.mem_map.mp hr with ⟨r0, hr0, rfl⟩
  by_cases h : r0.hash = h0
  · rw [if_pos (by simp [h])]
  · rw [if_neg (by simp [h])] at hrh ⊢
    exact absurd hrh h

lemma exists_hash_updateTxRows {rows : List TxRow} {t : TxRow} (ht : t ∈ rows)
    (st : TransactionState) :
    ∃ r ∈ Postgres.updateTxRows rows t.hash st, r.hash = t.hash := by
  refine ⟨(fun r : TxRow =>
    if r.hash == t.hash then { r with state := st } else r) t,
    List.mem_map_of_mem _ ht, ?_⟩
  simp

/-- C5: the listener loop body handles a pending transaction exactly as
specified: no L1 receipt leaves the whole state alone; a failed receipt
marks the row `Failed` without touching the gauge; a successful receipt
that is not yet `finalization_delay` blocks deep leaves the state alone
(the row stays `Pending`); and a deep-enough successful receipt marks the
row `Finalized` and sets the `last_eth_block_w_blob` gauge to the
inclusion block number (via the `as i64` cast, the identity below
`2^63`). -/
theorem c5_listener_tick_cases (resp : Nat → Option TransactionResponse)
    (delay cb : Nat) (s : ListenerState) (tx : TxRow)
    (htx : tx ∈ Postgres.get_pending_txs s.db) :
    (resp tx.hash = none → StateListener.checkTx resp delay cb s tx = s)
    ∧ (∀ r, resp tx.hash = some r → r.succeeded = false →
        (∃ row ∈ (StateListener.checkTx resp delay cb s tx).db.transactions,
          row.hash = tx.hash)
        ∧ (∀ row ∈ (StateListener.checkTx resp delay cb s tx).db.transactions,
            row.hash = tx.hash → row.state = .failed)
        ∧ (StateListener.checkTx resp delay cb s tx).gauge = s.gauge)
    ∧ (∀ r, resp tx.hash = some r → r.succeeded = true →
        cb < r.block_number + delay →
        StateListener.checkTx resp delay cb s tx = s)
    ∧ (∀ r, resp tx.hash = some r → r.succeeded = true →
        r.block_number + delay ≤ cb →
        (∃ row ∈ (StateListener.checkTx resp delay cb s tx).db.transactions,
          row.hash = tx.hash)
        ∧ (∀ row ∈ (StateListener.checkTx resp delay cb s tx).db.transactions,
            row.hash = tx.hash → row.state = .finalized)
        ∧ (StateListener.checkTx resp delay cb s tx).gauge = i64OfNat r.block_number
        ∧ (r.block_number < 2 ^ 63 →
            (StateListener.checkTx resp delay cb s tx).gauge
              = (r.block_number : Int))) := by
  have htxm : tx ∈ s.db.transactions := (List.mem_filter.mp htx).1
  refine ⟨?_, ?_, ?_, ?_⟩
  · intro hn
    unfold StateListener.checkTx
    rw [hn]
  · intro r hr hs
    unfold StateListener.checkTx
    rw [hr]
    dsimp only
    rw [if_pos hs]
    exact ⟨exists_hash_updateTxRows htxm .failed,
      updateTxRows_state_at_hash _ _ _, rfl⟩
  · intro r hr hs hb
    unfold StateListener.checkTx
    rw [hr]
    dsimp only
    rw [if_neg (by simp [hs]), if_pos hb]
  · intro r hr hs hb
    unfold StateListener.checkTx
    rw [hr]
    dsimp only
    rw [if_neg (by simp [hs]), if_neg (by omega)]
    refine ⟨exists_hash_updateTxRows htxm .finalized,
      updateTxRows_state_at_hash _ _ _, rfl, ?_⟩
    intro hlt
    show i64OfNat r.block_number = (r.block_number : Int)
    unfold i64OfNat
    rw [if_pos (by omega : r.block_number % 2 ^ 64 < 2 ^ 63)]
    omega

/-- Witness for C5: the specification's happy-finality example — receipt
at block 32, current height 34, `finalization_delay = 1` — marks the one
pending row `Finalized` and sets the gauge to 32. -/
theorem c5_listener_tick_cases_witness :
    (∃ row ∈ (StateListener.checkTx (fun _ => some (TransactionResponse.mk 32 true))
        1 34 (ListenerState.mk (Db.mk [] [] [] [TxRow.mk 1 9 .pending] [] 0 0) 0)
        (TxRow.mk 1 9 .pending)).db.transactions,
      row.hash = (TxRow.mk 1 9 .pending).hash)
    ∧ (∀ row ∈ (StateListener.checkTx (fun _ => some (TransactionResponse.mk 32 true))
        1 34 (ListenerState.mk (Db.mk [] [] [] [TxRow.mk 1 9 .pending] [] 0 0) 0)
        (TxRow.mk 1 9 .pending)).db.transactions,
        row.hash = (TxRow.mk 1 9 .pending).hash → row.state = .finalized)
    ∧ (StateListener.checkTx (fun _ => some (TransactionResponse.mk 32 true))
        1 34 (ListenerState.mk (Db.mk [] [] [] [TxRow.mk 1 9 .pending] [] 0 0) 0)
        (TxRow.mk 1 9 .pending)).gauge = i64OfNat 32
    ∧ (32 < 2 ^ 63 →
        (StateListener.checkTx (fun _ => some (TransactionResponse.mk 32 true))
          1 34 (ListenerState.mk (Db.mk [] [] [] [TxRow.mk 1 9 .pending] [] 0 0) 0)
          (TxRow.mk 1 9 .pending)).gauge = ((32 : Nat) : Int)) :=
  (c5_listener_tick_cases (fun _ => some (TransactionResponse.mk 32 true)) 1 34
    (ListenerState.mk (Db.mk [] [] [] [TxRow.mk 1 9 .pending] [] 0 0) 0)
    (TxRow.mk 1 9 .pending) (by decide)).2.2.2
    (TransactionResponse.mk 32 true) rfl rfl (by decide)

end FuelBlockCommitter
